import Mathlib

/-!
Verification of the tess ticket runner (`scripts/run-tickets.mjs`).

The development shallowly embeds the runner's pure logic:

* filename priority parsing and per-stage ticket discovery (`discoverTickets`),
* CLI argument and stage-list parsing (`parseArgsLoop`, `parseStages`),
* the global stage-then-priority ordering of the snapshot (`sortSnapshot`),
* the sequential fail-stop driver loop (`runLoop`, `mainModel`), with the
  driver's observable side effects (log creation, spawns, stderr, exit code)
  recorded as an explicit effect trace,
* the Claude stream-json line normalizer (`formatClaudeJsonLine`), and
* the process supervisor's timer state machine (`supRun`), over a timed
  trace of child-process events.

JavaScript specifics that matter are modeled explicitly: `parseInt` may
return NaN (modeled as `none`), every `<` comparison against NaN is false,
and `Array.prototype.sort` is a stable sort by a comparator (modeled with
`List.insertionSort`, which is stable; a stable sort by a consistent
comparator determines the result list uniquely).
-/

namespace Tess

/-! ### JS string primitives

Lean's built-in `String` operations are re-implemented structurally over
`List Char` so that all definitions reduce inside the kernel. -/

/-- JS `String.prototype.endsWith`, for plain (non-pattern) suffixes. -/
def jsEndsWith (s sfx : String) : Bool :=
  sfx.data.isSuffixOf s.data

/-- Split a character list at every occurrence of the separator, keeping
empty groups, as JS `split` does with a single-character separator. -/
def jsSplitChars (sep : Char) : List Char → List (List Char)
  | [] => [[]]
  | c :: cs =>
    let r := jsSplitChars sep cs
    if c = sep then [] :: r
    else
      match r with
      | [] => [[c]]
      | g :: gs => (c :: g) :: gs

/-- JS `String.prototype.split` with a single-character separator.
As in JS, `"".split(sep) = [""]`. -/
def jsSplit (s : String) (sep : Char) : List String :=
  (jsSplitChars sep s.data).map (fun cs => ⟨cs⟩)

/-- JS `String.prototype.trim`: drop whitespace from both ends. -/
def jsTrim (s : String) : String :=
  ⟨((s.data.dropWhile Char.isWhitespace).reverse.dropWhile Char.isWhitespace).reverse⟩

/-- Value of a (non-empty) list of decimal digits, most significant first. -/
def digitsToNat (ds : List Char) : Nat :=
  ds.foldl (fun n c => n * 10 + (c.toNat - 48)) 0

/-- Longest leading run of ASCII digits, as a number; `none` when there is
no leading digit at all. -/
def digitSeq (cs : List Char) : Option Nat :=
  let ds := cs.takeWhile Char.isDigit
  if ds.isEmpty then none else some (digitsToNat ds)

/-- JS `parseInt(s, 10)`: skip leading whitespace, allow one sign, then take
the longest run of decimal digits, ignoring any trailing garbage.  No digit
at all gives NaN, modeled as `none`. -/
def parseIntJS (s : String) : Option Int :=
  let cs := s.data.dropWhile Char.isWhitespace
  match cs with
  | '-' :: rest => (digitSeq rest).map (fun n => -(n : Int))
  | '+' :: rest => (digitSeq rest).map (fun n => (n : Int))
  | _ => (digitSeq cs).map (fun n => (n : Int))

/-- JS `<` between a number and a possibly-NaN right operand (`none` models
NaN): every comparison against NaN is false. -/
def jsLtNan (p : Int) (m : Option Int) : Bool :=
  match m with
  | some n => decide (p < n)
  | none => false

/-! ### Ticket discovery (`discoverTickets`, run-tickets.mjs lines 205-240) -/

/-- Test of the regex `PRIORITY_PREFIX`, pattern `^(\d+)-` anchored at the
start: one or more ASCII digits at the very start, immediately followed by
a dash.  The runner applies it to `readdir` entries, which are already base
names. -/
def priorityPrefixTest (s : String) : Bool :=
  let ds := s.data.takeWhile Char.isDigit
  !ds.isEmpty && ((s.data.dropWhile Char.isDigit).head? == some '-')

/-- Model of `parsePriority`: the captured digit run via `parseInt(_, 10)`,
or 0 when the pattern does not match. -/
def parsePriority (s : String) : Nat :=
  if priorityPrefixTest s then digitsToNat (s.data.takeWhile Char.isDigit) else 0

/-- One discovered ticket.  The runner also stores `path`, which is just
`join(ticketsDir, stage, file)` and carries no extra information. -/
structure Ticket where
  file : String
  stage : String
  priority : Nat
deriving DecidableEq, Repr

/-- Relation induced by the comparator `(a, b) => b.priority - a.priority`
of `tickets.sort(...)`: descending priority. -/
def byPriorityDesc (a b : Ticket) : Prop :=
  (b.priority : Int) - (a.priority : Int) ≤ 0

instance : DecidableRel byPriorityDesc :=
  fun a b => inferInstanceAs (Decidable ((b.priority : Int) - (a.priority : Int) ≤ 0))

instance : IsTotal Ticket byPriorityDesc :=
  ⟨by intro a b; unfold byPriorityDesc; omega⟩

instance : IsTrans Ticket byPriorityDesc :=
  ⟨by intro a b c; unfold byPriorityDesc; omega⟩

/-- The `tickets` accumulator of `discoverTickets` right before its sort:
directory entries in discovery (readdir) order, kept when they end in
`.md`, match the priority prefix pattern, and are not dropped by
`priority < minPriority` (false for a NaN threshold). -/
def discoverFilter (es : List String) (stage : String)
    (minPriority : Option Int) : List Ticket :=
  es.filterMap (fun entry =>
    if jsEndsWith entry ".md" && priorityPrefixTest entry then
      let priority := parsePriority entry
      if jsLtNan (priority : Int) minPriority then none
      else some { file := entry, stage := stage, priority := priority }
    else none)

/-- Model of `discoverTickets(ticketsDir, stage, minPriority)`.  The
directory listing is `none` when the stage directory is missing or
unreadable (the `access` guard returns `[]`); otherwise the filtered
candidates are stably sorted by descending priority. -/
def discoverTickets (entries : Option (List String)) (stage : String)
    (minPriority : Option Int) : List Ticket :=
  match entries with
  | none => []
  | some es => List.insertionSort byPriorityDesc (discoverFilter es stage minPriority)

/-! ### Stage selection and the global snapshot order -/

/-- One `{ stage, minPriority }` entry of the parsed `--stages` list. -/
structure StageSel where
  stage : String
  minPriority : Option Int
deriving DecidableEq, Repr

/-- The `PENDING_STAGES` constant (run-tickets.mjs line 193). -/
def PENDING_STAGES : List String := ["fix", "review", "implement", "plan"]

/-- Keys of the `agents` adapter registry, in object-literal order. -/
def agentNames : List String := ["claude", "auggie", "cursor"]

/-- Index of a stage in the run's stage list, as looked up in
`new Map(opts.stages.map(({ stage }, i) => [stage, i]))`: a JS `Map` keeps
the last binding of a duplicated key, and `?? 999` covers absent keys. -/
def stageOrderIdx (stages : List StageSel) (st : String) : Nat :=
  match (stages.enum.filter (fun p => p.2.stage == st)).getLast? with
  | some p => p.1
  | none => 999

/-- The comparator of the global `allTickets.sort(...)`: stage index
ascending, then priority descending. -/
def cmpMain (stages : List StageSel) (a b : Ticket) : Int :=
  let sa := stageOrderIdx stages a.stage
  let sb := stageOrderIdx stages b.stage
  if sa ≠ sb then (sa : Int) - (sb : Int) else (b.priority : Int) - (a.priority : Int)

/-- Relation induced by `cmpMain`: "sorts no later than". -/
def mainLe (stages : List StageSel) (a b : Ticket) : Prop :=
  cmpMain stages a b ≤ 0

instance (stages : List StageSel) : DecidableRel (mainLe stages) :=
  fun a b => inferInstanceAs (Decidable (cmpMain stages a b ≤ 0))

theorem cmpMain_le_iff (stages : List StageSel) (a b : Ticket) :
    cmpMain stages a b ≤ 0 ↔
      (stageOrderIdx stages a.stage < stageOrderIdx stages b.stage ∨
        (stageOrderIdx stages a.stage = stageOrderIdx stages b.stage ∧
          b.priority ≤ a.priority)) := by
  unfold cmpMain
  by_cases h : stageOrderIdx stages a.stage = stageOrderIdx stages b.stage
  · rw [if_neg (not_not_intro h)]
    omega
  · rw [if_pos h]
    omega

theorem cmpMain_eq_zero (stages : List StageSel) (a b : Ticket)
    (h : cmpMain stages a b = 0) :
    stageOrderIdx stages a.stage = stageOrderIdx stages b.stage ∧
      a.priority = b.priority := by
  unfold cmpMain at h
  by_cases hs : stageOrderIdx stages a.stage = stageOrderIdx stages b.stage
  · rw [if_neg (not_not_intro hs)] at h
    omega
  · rw [if_pos hs] at h
    omega

instance (stages : List StageSel) : IsTotal Ticket (mainLe stages) :=
  ⟨by
    intro a b
    unfold mainLe
    rw [cmpMain_le_iff, cmpMain_le_iff]
    omega⟩

instance (stages : List StageSel) : IsTrans Ticket (mainLe stages) :=
  ⟨by
    intro a b c hab hbc
    unfold mainLe at hab hbc ⊢
    rw [cmpMain_le_iff] at hab hbc ⊢
    omega⟩

/-- The stable global sort of the snapshot (run-tickets.mjs lines 491-497). -/
def sortSnapshot (stages : List StageSel) (ts : List Ticket) : List Ticket :=
  List.insertionSort (mainLe stages) ts

/-! ### CLI parsing (`parseStages`, `parseArgs`, lines 420-468) -/

/-- The mutable `opts` record built by `parseArgs`. -/
structure Opts where
  minPriority : Option Int
  agent : String
  dryRun : Bool
  stagesRaw : Option String
deriving DecidableEq, Repr

/-- Initial value of `opts` in `parseArgs`. -/
def defaultOpts : Opts :=
  { minPriority := some 3, agent := "claude", dryRun := false, stagesRaw := none }

/-- Model of `parseStages(raw, defaultMin)`: split on commas; each token is
trimmed and split on a colon into a stage name and an optional per-stage
minimum, which is `parseInt`-ed; bare names take the global default. -/
def parseStages (raw : String) (defaultMin : Option Int) : List StageSel :=
  (jsSplit raw ',').map (fun token =>
    let parts := jsSplit (jsTrim token) ':'
    let stage := (parts.head?).getD ""
    match parts.get? 1 with
    | some pStr => { stage := stage, minPriority := parseIntJS pStr }
    | none => { stage := stage, minPriority := defaultMin })

/-- Model of the argument `switch` loop of `parseArgs`.  Valued flags
consume the following word; a valued flag in last position reads
`argv[++i] = undefined` (so `parseInt(undefined)` is NaN, the agent name
becomes the string form of `undefined`, and `--stages` keeps its default
via `??`).  `--help` prints usage and exits 0; unknown words are ignored.
The `Sum.inl` result is the `process.exit` code. -/
def parseArgsLoop : List String → Opts → Sum Int Opts
  | [], opts => .inr opts
  | ["--min-priority"], opts => .inr { opts with minPriority := none }
  | "--min-priority" :: v :: rest, opts =>
      parseArgsLoop rest { opts with minPriority := parseIntJS v }
  | ["--agent"], opts => .inr { opts with agent := "undefined" }
  | "--agent" :: v :: rest, opts => parseArgsLoop rest { opts with agent := v }
  | ["--stages"], opts => .inr { opts with stagesRaw := none }
  | "--stages" :: v :: rest, opts => parseArgsLoop rest { opts with stagesRaw := some v }
  | "--dry-run" :: rest, opts => parseArgsLoop rest { opts with dryRun := true }
  | "--help" :: _, _ => .inl 0
  | _ :: rest, opts => parseArgsLoop rest opts

/-- The default `--stages` value `PENDING_STAGES.join(',')`. -/
def joinComma : List String → String
  | [] => ""
  | [s] => s
  | s :: rest => s ++ "," ++ joinComma rest

/-- The `join(', ')` used when rendering name lists in error messages. -/
def joinCommaSpace : List String → String
  | [] => ""
  | [s] => s
  | s :: rest => s ++ ", " ++ joinCommaSpace rest

/-- First stage entry whose name is not in `PENDING_STAGES`, rendered as
the fatal `console.error` message of `parseArgs`. -/
def checkStagesErr (stages : List StageSel) : Option String :=
  (stages.find? (fun sp => !(PENDING_STAGES.contains sp.stage))).map
    (fun sp => "Unknown stage: \"" ++ sp.stage ++ "\". Valid stages: " ++
      joinCommaSpace PENDING_STAGES)

/-! ### Driver effects and the main loop (`main`, lines 472-567)

Only the driver's spec-relevant side effects are recorded: creation of the
logs directory, creation of a per-ticket log file, spawning an agent
process, and messages to standard error.  Console stdout banners carry no
spec obligation and are not modeled. -/

/-- One observable driver side effect. -/
inductive Effect where
  | errMsg (msg : String)
  | mkLogsDir
  | writeLog (file stage : String)
  | spawn (agent file : String)
deriving DecidableEq, Repr

/-- Fully parsed run configuration: `parseArgs`'s return value. -/
structure RunCfg where
  opts : Opts
  stages : List StageSel
deriving DecidableEq, Repr

/-- Model of `parseArgs(argv)` after the switch loop: resolve the stage
list (defaulting to `PENDING_STAGES` joined), and fail with exit code 1 on
the first unknown stage name.  `Sum.inl` carries the effects emitted so far
and the process exit code. -/
def parseArgsFull (argv : List String) : Sum (List Effect × Int) RunCfg :=
  match parseArgsLoop argv defaultOpts with
  | .inl code => .inl ([], code)
  | .inr opts =>
    let stagesRaw := opts.stagesRaw.getD (joinComma PENDING_STAGES)
    let stages := parseStages stagesRaw opts.minPriority
    match checkStagesErr stages with
    | some msg => .inl ([Effect.errMsg msg], 1)
    | none => .inr { opts := opts, stages := stages }

/-- The snapshot: `discoverTickets` per selected stage, concatenated in
stage-list order before the global sort (lines 479-483). -/
def snapshotTickets (listings : String → Option (List String))
    (stages : List StageSel) : List Ticket :=
  stages.flatMap (fun sp => discoverTickets (listings sp.stage) sp.stage sp.minPriority)

/-- Result of one driver run: effect trace, the driver process's own exit
code, and the tickets for which an agent process was spawned, in order. -/
structure DriverOut where
  fx : List Effect
  exitCode : Int
  processed : List Ticket
deriving DecidableEq, Repr

/-- The per-ticket loop of `main` (lines 520-559).  For each ticket the
driver creates the log file, then calls `runAgent`, which first rejects an
unknown agent name with a stderr message and `process.exit(1)` — after the
log file exists but before any spawn.  Otherwise the agent is spawned and
`exec` gives the invocation's resolved exit code: non-zero stops the batch
with that code; the loop falling off the end exits 0.  Of the three
`console.error` lines printed on failure, the middle one (`Log: <path>`)
names the timestamped log path, which lies outside this model; the 500ms
pause between successful tickets has no observable effect here. -/
def runLoop (agentKnown : Bool) (agentName : String) (exec : Ticket → Int) :
    List Ticket → DriverOut
  | [] => { fx := [], exitCode := 0, processed := [] }
  | t :: ts =>
    if agentKnown then
      let code := exec t
      if code = 0 then
        let r := runLoop agentKnown agentName exec ts
        { fx := Effect.writeLog t.file t.stage :: Effect.spawn agentName t.file :: r.fx,
          exitCode := r.exitCode, processed := t :: r.processed }
      else
        { fx := [Effect.writeLog t.file t.stage, Effect.spawn agentName t.file,
                 Effect.errMsg ("Agent exited with code " ++ toString code ++
                   " on ticket: " ++ t.file),
                 Effect.errMsg "Stopping to avoid cascading failures. Re-run to retry."],
          exitCode := code, processed := [t] }
    else
      { fx := [Effect.writeLog t.file t.stage,
               Effect.errMsg ("Unknown agent: " ++ agentName ++ ". Available: " ++
                 joinCommaSpace agentNames)],
        exitCode := 1, processed := [] }

/-- Model of `main(argv, listings, exec)`: parse arguments, snapshot the
ticket list once, sort it, and run the loop — unless the snapshot is empty
or `--dry-run` was given, both of which exit 0 without spawning anything.
`listings` is the state of the tickets directory at snapshot time;
`exec` resolves one supervised agent invocation per ticket. -/
def mainModel (listings : String → Option (List String)) (exec : Ticket → Int)
    (argv : List String) : DriverOut :=
  match parseArgsFull argv with
  | .inl (fx, code) => { fx := fx, exitCode := code, processed := [] }
  | .inr cfg =>
    let allTickets := snapshotTickets listings cfg.stages
    if allTickets.isEmpty then { fx := [], exitCode := 0, processed := [] }
    else
      let sorted := sortSnapshot cfg.stages allTickets
      if cfg.opts.dryRun then { fx := [], exitCode := 0, processed := [] }
      else
        let r := runLoop (agentNames.contains cfg.opts.agent) cfg.opts.agent exec sorted
        { fx := Effect.mkLogsDir :: r.fx, exitCode := r.exitCode, processed := r.processed }

/-! ### Stream events and the Claude line normalizer (lines 63-114) -/

/-- Normalized unit produced from one raw output line. -/
structure StreamEvent where
  text : String
  done : Bool
  exitCode : Option Int
deriving DecidableEq, Repr

/-- Content block of an `assistant` or `user` stream-json message.  The
`toolUse` constructor models the object-input case: it carries the
`JSON.stringify(block.input)` string already serialized (the formatter
applies the 200-character cap; a non-object input would skip the cap), and
`toolResult` carries the joined text of its content blocks, since the
claims do not depend on JSON serialization itself. -/
inductive CBlock where
  | textBlock (text : String)
  | toolUse (name : String) (inputStr : String)
  | toolResult (content : String)
  | otherBlock
deriving DecidableEq, Repr

/-- Parsed shape of one Claude stream-json line, as dispatched on
`obj.type` by `formatClaudeJsonLine`.  `rawLine` covers both lines that are
not JSON and JSON objects of unrecognized type, which fall through to the
plain-text path.  The optional duration and cost of a `result` object are
carried as their rendered decimal strings (`toFixed` output), since no
claim depends on float formatting. -/
inductive ClaudeMsg where
  | systemInit (sessionId : Option String)
  | assistantMsg (content : List CBlock)
  | userMsg (content : List CBlock)
  | resultMsg (isErr : Bool) (durStr : Option String) (costStr : Option String)
      (res : Option String)
  | rawLine (line : String)
deriving DecidableEq, Repr

/-- JS `.slice(0, 200)` truncation, counted in characters (JS counts
UTF-16 units; the difference is immaterial to the claims). -/
def jsSlice200 (s : String) : String :=
  ⟨s.data.take 200⟩

/-- Concatenation of rendered parts, as `parts.join('')`. -/
def concatAll : List String → String
  | [] => ""
  | s :: rest => s ++ concatAll rest

/-- Appends a newline unless the line already ends with one (the
passthrough path for non-JSON lines). -/
def ensureNewline (line : String) : String :=
  if jsEndsWith line "\n" then line else line ++ "\n"

/-- Model of `formatClaudeJsonLine`: renders each recognized message shape
to display text; only a `result` object sets `done` and an exit code —
1 when `is_error` is set, else 0. -/
def formatClaudeJsonLine : ClaudeMsg → StreamEvent
  | .systemInit sid =>
      { text := "[session " ++ sid.getD "?" ++ "]\n", done := false, exitCode := none }
  | .assistantMsg content =>
      let parts := content.filterMap (fun b =>
        match b with
        | .textBlock t => if t ≠ "" then some ("\n[ASSISTANT]\n" ++ t ++ "\n") else none
        | .toolUse n inp => some ("\n[TOOL:" ++ n ++ "] " ++ jsSlice200 inp ++ "\n")
        | _ => none)
      { text := concatAll parts, done := false, exitCode := none }
  | .userMsg content =>
      let parts := content.filterMap (fun b =>
        match b with
        | .toolResult txt => some ("  ✓ " ++ jsSlice200 txt ++ "\n")
        | .textBlock t => if t ≠ "" then some ("\n[USER]\n" ++ t ++ "\n") else none
        | _ => none)
      { text := concatAll parts, done := false, exitCode := none }
  | .resultMsg isErr durStr costStr res =>
      let status := if isErr then "✗ ERROR" else "✓ DONE"
      let dur := match durStr with
        | some d => " | " ++ d ++ "s"
        | none => ""
      let cost := match costStr with
        | some c => " | cost $" ++ c
        | none => ""
      { text := "\n[RESULT " ++ status ++ dur ++ cost ++ "]\n" ++ res.getD "" ++ "\n",
        done := true, exitCode := some (if isErr then 1 else 0) }
  | .rawLine line =>
      { text := ensureNewline line, done := false, exitCode := none }

/-! ### The process supervisor's timer state machine (`runAgent`,
lines 289-390)

The supervisor is modeled over a timed trace of child-process events.
Exactly one timer is armed at any moment: the idle timer (armed at spawn
and re-armed by any stdout/stderr data while no result has been latched)
or, once the normalizer reports `done`, the 30-second grace timer.  When
the armed deadline elapses before the next trace event (or the trace
ends), the timer fires: the child is killed with `child.kill()`; a
signal-killed Node child closes with a `null` code, so the settled value
`resultExitCode ?? code ?? 1` is the latched code if any, else 1. -/

/-- The idle timeout: 10 minutes without output means a hung agent. -/
def IDLE_TIMEOUT_MS : Nat := 10 * 60 * 1000

/-- The post-result grace timeout of 30 seconds (the `30_000` literal in
`processLine`). -/
def RESULT_GRACE_MS : Nat := 30000

/-- Supervisor state: the latched `resultExitCode` and the absolute time at
which the currently armed timer fires. -/
structure SupSt where
  latched : Option Int
  deadline : Nat
deriving DecidableEq, Repr

/-- State right after spawn: `resetIdleTimer()` has armed the idle timer at
time 0 and no result is latched. -/
def initSup : SupSt :=
  { latched := none, deadline := IDLE_TIMEOUT_MS }

/-- Effect of `processLine` on `(resultExitCode, deadline)`: a `done` event
latches `result.exitCode ?? 0` and re-arms the timer to a 30-second grace
deadline from the chunk's arrival time; any other line leaves both alone. -/
def procLine (now : Nat) (acc : Option Int × Nat) (ev : StreamEvent) :
    Option Int × Nat :=
  if ev.done then (some (ev.exitCode.getD 0), now + RESULT_GRACE_MS) else acc

/-- Effect of one stdout `data` chunk at time `now`: reset the idle timer
if no result has been latched (`if (resultExitCode == null) resetIdleTimer()`),
then process each completed line.  A stderr chunk behaves like a chunk with
no completed lines: it only resets the idle timer. -/
def stepChunk (s : SupSt) (now : Nat) (evs : List StreamEvent) : SupSt :=
  let d0 := if s.latched.isNone then now + IDLE_TIMEOUT_MS else s.deadline
  let p := evs.foldl (procLine now) (s.latched, d0)
  { latched := p.1, deadline := p.2 }

/-- One timed child-process event as seen by the supervisor.  For an `out`
chunk, `evs` is the normalizer's output for each completed line of the
chunk (possibly empty).  `close` is the natural process exit: `code` is the
process exit code (`none` for a signal death) and `pending` is the
normalized trailing partial line flushed by the close handler, if any. -/
inductive ChildEvent where
  | out (evs : List StreamEvent)
  | err
  | close (code : Option Int) (pending : List StreamEvent)
deriving Repr

/-- Run of one supervised invocation over a time-ordered trace, resolving
the final exit code.  If the armed deadline is reached before the next
event (or there is no next event), the timer fires, the child is killed,
and the invocation settles with `resultExitCode ?? null ?? 1`.  A natural
close settles with `resultExitCode ?? code ?? 1` after flushing the
trailing partial line. -/
def supRun (s : SupSt) : List (Nat × ChildEvent) → Int
  | [] => s.latched.getD 1
  | (t, e) :: rest =>
    if s.deadline ≤ t then s.latched.getD 1
    else
      match e with
      | .out evs => supRun (stepChunk s t evs) rest
      | .err => supRun (stepChunk s t []) rest
      | .close code pending =>
        match (pending.foldl (procLine t) (s.latched, s.deadline)).1 with
        | some v => v
        | none => code.getD 1

/-! ### Helper lemmas about discovery and the driver loop -/

theorem file_mem_discover (es : List String) (stage : String) (m : Option Int)
    (entry : String) (hmem : entry ∈ es) (h1 : jsEndsWith entry ".md" = true)
    (h2 : priorityPrefixTest entry = true)
    (h3 : jsLtNan (parsePriority entry : Int) m = false) :
    entry ∈ (discoverTickets (some es) stage m).map Ticket.file := by
  unfold discoverTickets discoverFilter
  refine List.mem_map.mpr ⟨⟨entry, stage, parsePriority entry⟩, ?_, rfl⟩
  rw [List.mem_insertionSort]
  refine List.mem_filterMap.mpr ⟨entry, hmem, ?_⟩
  rw [if_pos (by rw [h1, h2]; rfl), if_neg (by rw [h3]; exact Bool.false_ne_true)]

theorem mem_discover_inv {es : List String} {stage : String} {m : Option Int}
    {tk : Ticket} (h : tk ∈ discoverTickets (some es) stage m) :
    tk.file ∈ es ∧ tk.stage = stage ∧ jsEndsWith tk.file ".md" = true ∧
      priorityPrefixTest tk.file = true ∧
      jsLtNan (tk.priority : Int) m = false ∧ tk.priority = parsePriority tk.file := by
  unfold discoverTickets discoverFilter at h
  rw [List.mem_insertionSort] at h
  obtain ⟨e, he, hfe⟩ := List.mem_filterMap.mp h
  by_cases hc : (jsEndsWith e ".md" && priorityPrefixTest e) = true
  · rw [if_pos hc] at hfe
    by_cases hlt : jsLtNan (parsePriority e : Int) m = true
    · rw [if_pos hlt] at hfe
      cases hfe
    · rw [if_neg hlt] at hfe
      cases hfe
      simp only [Bool.and_eq_true] at hc
      obtain ⟨hE, hP⟩ := hc
      exact ⟨he, rfl, hE, hP, Bool.not_eq_true _ ▸ Bool.eq_false_iff.mpr hlt, rfl⟩
  · rw [if_neg hc] at hfe
    cases hfe

theorem mem_discover_none {stage : String} {m : Option Int} {tk : Ticket} :
    tk ∉ discoverTickets none stage m := by
  unfold discoverTickets
  exact List.not_mem_nil tk

/-- Claim C4: a directory entry becomes a ticket of the stage exactly when
it ends in the ticket extension, matches the priority-prefix pattern, and
its parsed priority reaches the threshold; everything else is excluded. -/
theorem claim_C4 (entries : List String) (stage : String) (n : Int) (entry : String)
    (hmem : entry ∈ entries) :
    entry ∈ (discoverTickets (some entries) stage (some n)).map Ticket.file ↔
      (jsEndsWith entry ".md" = true ∧ priorityPrefixTest entry = true ∧
        n ≤ (parsePriority entry : Int)) := by
  constructor
  · intro hin
    obtain ⟨tk, htk, hfile⟩ := List.mem_map.mp hin
    obtain ⟨_, _, hE, hP, hlt, hpr⟩ := mem_discover_inv htk
    subst hfile
    refine ⟨hE, hP, ?_⟩
    simp only [jsLtNan, decide_eq_false_iff_not, not_lt] at hlt
    rw [← hpr]
    exact hlt
  · rintro ⟨h1, h2, h3⟩
    refine file_mem_discover entries stage (some n) entry hmem h1 h2 ?_
    simp only [jsLtNan, decide_eq_false_iff_not, not_lt]
    exact h3

theorem claim_C4_witness :
    "5-a.md" ∈ ((discoverTickets (some ["5-a.md", "2-b.md", "x.md", "9-d.txt"])
        "fix" (some 3)).map Ticket.file) ∧
    "2-b.md" ∉ ((discoverTickets (some ["5-a.md", "2-b.md", "x.md", "9-d.txt"])
        "fix" (some 3)).map Ticket.file) := by
  constructor
  · exact (claim_C4 ["5-a.md", "2-b.md", "x.md", "9-d.txt"] "fix" 3 "5-a.md"
      (by decide)).mpr (by decide)
  · intro hmem
    have h := (claim_C4 ["5-a.md", "2-b.md", "x.md", "9-d.txt"] "fix" 3 "2-b.md"
      (by decide)).mp hmem
    revert h
    decide

/-- Claim C10: a non-numeric `--min-priority` parses to NaN without any
error being raised, the comparison `priority < NaN` is always false, and
so every prefix-matching `.md` entry of a bare stage is discovered
regardless of its priority. -/
theorem claim_C10 (s : String) (h : parseIntJS s = none) :
    parseArgsFull ["--min-priority", s] =
      .inr ⟨⟨none, "claude", false, none⟩,
        [⟨"fix", none⟩, ⟨"review", none⟩, ⟨"implement", none⟩, ⟨"plan", none⟩]⟩ ∧
    ∀ (entries : List String) (stage entry : String), entry ∈ entries →
      jsEndsWith entry ".md" = true → priorityPrefixTest entry = true →
      entry ∈ (discoverTickets (some entries) stage none).map Ticket.file := by
  constructor
  · simp only [parseArgsFull, parseArgsLoop, h]
    rfl
  · intro entries stage entry hmem h1 h2
    exact file_mem_discover entries stage none entry hmem h1 h2 rfl

theorem runLoop_processed_mem (k : Bool) (ag : String) (exec : Ticket → Int) :
    ∀ (l : List Ticket) (tk : Ticket), tk ∈ (runLoop k ag exec l).processed → tk ∈ l := by
  intro l
  induction l with
  | nil => intro tk h; exact absurd h (List.not_mem_nil tk)
  | cons t ts ih =>
    intro tk h
    simp only [runLoop] at h
    split at h
    · split at h
      · rcases List.mem_cons.mp h with h1 | h1
        · exact h1 ▸ List.mem_cons_self t ts
        · exact List.mem_cons_of_mem t (ih tk h1)
      · rcases List.mem_singleton.mp h with h1
        exact h1 ▸ List.mem_cons_self t ts
    · exact absurd h (List.not_mem_nil tk)

theorem runLoop_allZero (ag : String) (exec : Ticket → Int) :
    ∀ l : List Ticket, (∀ u ∈ l, exec u = 0) →
      (runLoop true ag exec l).exitCode = 0 ∧ (runLoop true ag exec l).processed = l := by
  intro l
  induction l with
  | nil => intro _; exact ⟨rfl, rfl⟩
  | cons t ts ih =>
    intro hz
    have ht : exec t = 0 := hz t (List.mem_cons_self t ts)
    have hr := ih (fun u hu => hz u (List.mem_cons_of_mem t hu))
    simp [runLoop, ht, hr.1, hr.2]

theorem runLoop_stop (ag : String) (exec : Ticket → Int) :
    ∀ (l₁ : List Ticket) (t : Ticket) (l₂ : List Ticket),
      (∀ u ∈ l₁, exec u = 0) → exec t ≠ 0 →
      (runLoop true ag exec (l₁ ++ t :: l₂)).exitCode = exec t ∧
        (runLoop true ag exec (l₁ ++ t :: l₂)).processed = l₁ ++ [t] := by
  intro l₁
  induction l₁ with
  | nil =>
    intro t l₂ _ hnz
    simp [runLoop, hnz]
  | cons u l₁ ih =>
    intro t l₂ hz hnz
    have hu : exec u = 0 := hz u (List.mem_cons_self u l₁)
    have hr := ih t l₂ (fun v hv => hz v (List.mem_cons_of_mem u hv)) hnz
    simp [runLoop, hu, hr.1, hr.2]

theorem mainModel_empty (listings : String → Option (List String)) (exec : Ticket → Int)
    (argv : List String) (cfg : RunCfg)
    (hparse : parseArgsFull argv = .inr cfg)
    (hnil : snapshotTickets listings cfg.stages = []) :
    mainModel listings exec argv = ⟨[], 0, []⟩ := by
  simp [mainModel, hparse, hnil]

theorem mainModel_run (listings : String → Option (List String)) (exec : Ticket → Int)
    (argv : List String) (cfg : RunCfg)
    (hparse : parseArgsFull argv = .inr cfg)
    (hdry : cfg.opts.dryRun = false)
    (hne : snapshotTickets listings cfg.stages ≠ []) :
    mainModel listings exec argv =
      ⟨Effect.mkLogsDir :: (runLoop (agentNames.contains cfg.opts.agent) cfg.opts.agent
          exec (sortSnapshot cfg.stages (snapshotTickets listings cfg.stages))).fx,
        (runLoop (agentNames.contains cfg.opts.agent) cfg.opts.agent exec
          (sortSnapshot cfg.stages (snapshotTickets listings cfg.stages))).exitCode,
        (runLoop (agentNames.contains cfg.opts.agent) cfg.opts.agent exec
          (sortSnapshot cfg.stages (snapshotTickets listings cfg.stages))).processed⟩ := by
  have hE : (snapshotTickets listings cfg.stages).isEmpty = false := by
    rw [← Bool.not_eq_true]
    intro hc
    exact hne (List.isEmpty_iff.mp hc)
  simp [mainModel, hparse, hE, hdry]

theorem mainModel_processed_mem {listings : String → Option (List String)}
    {exec : Ticket → Int} {argv : List String} {tk : Ticket}
    (h : tk ∈ (mainModel listings exec argv).processed) :
    ∃ es, listings tk.stage = some es ∧ tk.file ∈ es := by
  rcases hp : parseArgsFull argv with p | cfg
  · rw [mainModel] at h
    rw [hp] at h
    exact absurd h (List.not_mem_nil tk)
  · by_cases hnil : snapshotTickets listings cfg.stages = []
    · rw [mainModel_empty listings exec argv cfg hp hnil] at h
      exact absurd h (List.not_mem_nil tk)
    · by_cases hdry : cfg.opts.dryRun = true
      · rw [mainModel] at h
        rw [hp] at h
        simp only [hdry] at h
        split at h
        · exact absurd h (List.not_mem_nil tk)
        · exact absurd h (List.not_mem_nil tk)
      · rw [mainModel_run listings exec argv cfg hp (Bool.not_eq_true _ ▸ hdry) hnil] at h
        have h1 := runLoop_processed_mem (agentNames.contains cfg.opts.agent)
          cfg.opts.agent exec
          (sortSnapshot cfg.stages (snapshotTickets listings cfg.stages)) tk h
        rw [sortSnapshot, List.mem_insertionSort] at h1
        obtain ⟨sp, hsp, hdisc⟩ := List.mem_flatMap.mp h1
        rcases hl : listings sp.stage with _ | es
        · rw [hl] at hdisc
          exact absurd hdisc mem_discover_none
        · rw [hl] at hdisc
          obtain ⟨hfile, hstage, _⟩ := mem_discover_inv hdisc
          exact ⟨es, hstage ▸ hl, hfile⟩

/-- Claim C2: the ticket list is snapshotted once before the loop; a file
name absent from every stage listing at snapshot time — in particular one
created by an agent after the snapshot — never appears among the processed
tickets of the current run. -/
theorem claim_C2 (listings : String → Option (List String)) (exec : Ticket → Int)
    (argv : List String) (f : String)
    (hnew : ∀ st es, listings st = some es → f ∉ es) :
    f ∉ (mainModel listings exec argv).processed.map Ticket.file := by
  intro hf
  obtain ⟨tk, htk, hfile⟩ := List.mem_map.mp hf
  obtain ⟨es, hes, hmem⟩ := mainModel_processed_mem htk
  exact hnew tk.stage es hes (hfile ▸ hmem)

/-- Tickets directory used by the C2 witness. -/
def c2Listings : String → Option (List String) := fun st =>
  if st = "fix" then some ["5-a.md"] else none

theorem claim_C2_witness :
    "9-new.md" ∉ (mainModel c2Listings (fun _ => 0) []).processed.map Ticket.file :=
  claim_C2 c2Listings (fun _ => 0) [] "9-new.md" (by
    intro st es hes
    by_cases h : st = "fix"
    · subst h
      have hfix : c2Listings "fix" = some ["5-a.md"] := rfl
      rw [hfix] at hes
      rw [← Option.some_inj.mp hes]
      decide
    · have hnone : c2Listings st = none := by simp [c2Listings, h]
      rw [hnone] at hes
      simp at hes)

/-- Claim C1: the driver processes the snapshot strictly in order; the
first ticket whose resolved code is non-zero stops the batch with exactly
that code as the driver's own exit code and no later ticket is attempted,
while an all-zero snapshot runs to completion and exits 0. -/
theorem claim_C1 (listings : String → Option (List String)) (exec : Ticket → Int)
    (argv : List String) (cfg : RunCfg)
    (hparse : parseArgsFull argv = .inr cfg)
    (hagent : agentNames.contains cfg.opts.agent = true)
    (hdry : cfg.opts.dryRun = false) :
    (∀ (l₁ : List Ticket) (t : Ticket) (l₂ : List Ticket),
      sortSnapshot cfg.stages (snapshotTickets listings cfg.stages) = l₁ ++ t :: l₂ →
      (∀ u ∈ l₁, exec u = 0) → exec t ≠ 0 →
      (mainModel listings exec argv).exitCode = exec t ∧
        (mainModel listings exec argv).processed = l₁ ++ [t]) ∧
    ((∀ u ∈ sortSnapshot cfg.stages (snapshotTickets listings cfg.stages), exec u = 0) →
      (mainModel listings exec argv).exitCode = 0 ∧
        (mainModel listings exec argv).processed =
          sortSnapshot cfg.stages (snapshotTickets listings cfg.stages)) := by
  constructor
  · intro l₁ t l₂ hsort hz hnz
    have hne : snapshotTickets listings cfg.stages ≠ [] := by
      intro h0
      rw [h0] at hsort
      exact absurd hsort (by simp [sortSnapshot])
    rw [mainModel_run listings exec argv cfg hparse hdry hne, hagent, hsort]
    exact runLoop_stop cfg.opts.agent exec l₁ t l₂ hz hnz
  · intro hz
    by_cases hnil : snapshotTickets listings cfg.stages = []
    · rw [mainModel_empty listings exec argv cfg hparse hnil, hnil]
      exact ⟨rfl, rfl⟩
    · rw [mainModel_run listings exec argv cfg hparse hdry hnil, hagent]
      exact runLoop_allZero cfg.opts.agent exec _ hz

/-- Tickets directory used by the C1 witness. -/
def c1Listings : String → Option (List String) := fun st =>
  if st = "fix" then some ["5-a.md", "3-c.md"] else none

/-- Resolved agent exit codes used by the C1 witness: the first ticket of
the snapshot fails with code 2. -/
def c1Exec : Ticket → Int := fun tk => if tk.file = "5-a.md" then 2 else 0

theorem claim_C1_witness :
    (mainModel c1Listings c1Exec []).exitCode = 2 ∧
      (mainModel c1Listings c1Exec []).processed = [⟨"5-a.md", "fix", 5⟩] := by
  have h := (claim_C1 c1Listings c1Exec []
      ⟨defaultOpts, [⟨"fix", some 3⟩, ⟨"review", some 3⟩, ⟨"implement", some 3⟩,
        ⟨"plan", some 3⟩]⟩ (by decide) (by decide) rfl).1
    [] ⟨"5-a.md", "fix", 5⟩ [⟨"3-c.md", "fix", 3⟩] (by decide)
    (by intro u hu; exact absurd hu (List.not_mem_nil u)) (by decide)
  exact ⟨h.1.trans (by decide), h.2.trans (by decide)⟩

/-- Tickets directory used by the C8 counterexample and witness: a single
pending ticket `fix/5-a.md`. -/
def c8Listings : String → Option (List String) := fun st =>
  if st = "fix" then some ["5-a.md"] else none

/-- Claim C8 counterexample: running with the unknown agent name `foo` and
one pending ticket is a configuration error — exit code 1 and an
"Unknown agent" message on standard error — yet the first ticket's log
file has already been created, so "no log file is produced" is false. -/
theorem claim_C8_counterexample :
    Effect.writeLog "5-a.md" "fix"
        ∈ (mainModel c8Listings (fun _ => 0) ["--agent", "foo"]).fx ∧
    (mainModel c8Listings (fun _ => 0) ["--agent", "foo"]).exitCode = 1 ∧
    Effect.errMsg "Unknown agent: foo. Available: claude, auggie, cursor"
        ∈ (mainModel c8Listings (fun _ => 0) ["--agent", "foo"]).fx := by
  decide

/-- Claim C8, amended: an unknown stage name is fatal before anything
happens — exit code 1, a stderr message, and an effect trace containing no
spawn, no logs directory and no log file.  An unknown agent identifier is
also fatal with exit code 1 and a stderr message, and still before any
process is spawned — but it is only detected when the first snapshotted
ticket reaches `runAgent`, after the logs directory and that ticket's log
file have been created. -/
theorem claim_C8 (argv : List String) (listings : String → Option (List String))
    (exec : Ticket → Int) :
    (∀ (opts : Opts) (msg : String), parseArgsLoop argv defaultOpts = .inr opts →
      checkStagesErr (parseStages (opts.stagesRaw.getD (joinComma PENDING_STAGES))
        opts.minPriority) = some msg →
      mainModel listings exec argv = ⟨[Effect.errMsg msg], 1, []⟩) ∧
    (∀ (cfg : RunCfg) (t : Ticket) (ts : List Ticket),
      parseArgsFull argv = .inr cfg →
      agentNames.contains cfg.opts.agent = false →
      cfg.opts.dryRun = false →
      sortSnapshot cfg.stages (snapshotTickets listings cfg.stages) = t :: ts →
      (mainModel listings exec argv).exitCode = 1 ∧
        (mainModel listings exec argv).processed = [] ∧
        (∀ (a f : String), Effect.spawn a f ∉ (mainModel listings exec argv).fx) ∧
        Effect.errMsg ("Unknown agent: " ++ cfg.opts.agent ++ ". Available: " ++
          joinCommaSpace agentNames) ∈ (mainModel listings exec argv).fx ∧
        Effect.writeLog t.file t.stage ∈ (mainModel listings exec argv).fx) ∧
    (∀ cfg : RunCfg, parseArgsFull argv = .inr cfg →
      snapshotTickets listings cfg.stages = [] →
      mainModel listings exec argv = ⟨[], 0, []⟩) := by
  refine ⟨?_, ?_, fun cfg hparse hnil => mainModel_empty listings exec argv cfg hparse hnil⟩
  · intro opts msg hloop hcheck
    simp [mainModel, parseArgsFull, hloop, hcheck]
  · intro cfg t ts hparse hag hdry hsort
    have hne : snapshotTickets listings cfg.stages ≠ [] := by
      intro h0
      rw [h0] at hsort
      exact absurd hsort (by simp [sortSnapshot])
    rw [mainModel_run listings exec argv cfg hparse hdry hne, hag, hsort]
    refine ⟨rfl, rfl, ?_, ?_, ?_⟩
    · intro a f hmem
      simp [runLoop] at hmem
    · simp [runLoop]
    · simp [runLoop]

theorem claim_C8_witness :
    mainModel c8Listings (fun _ => 0) ["--stages", "bogus"] =
      ⟨[Effect.errMsg "Unknown stage: \"bogus\". Valid stages: fix, review, implement, plan"],
        1, []⟩ ∧
    (mainModel c8Listings (fun _ => 0) ["--agent", "foo"]).exitCode = 1 ∧
    (mainModel c8Listings (fun _ => 0) ["--agent", "foo"]).processed = [] := by
  constructor
  · exact (claim_C8 ["--stages", "bogus"] c8Listings (fun _ => 0)).1
      ⟨some 3, "claude", false, some "bogus"⟩ _ (by decide) (by decide)
  · have h := (claim_C8 ["--agent", "foo"] c8Listings (fun _ => 0)).2.1
      ⟨⟨some 3, "foo", false, none⟩,
        [⟨"fix", some 3⟩, ⟨"review", some 3⟩, ⟨"implement", some 3⟩, ⟨"plan", some 3⟩]⟩
      ⟨"5-a.md", "fix", 5⟩ [] (by decide) (by decide) rfl (by decide)
    exact ⟨h.1, h.2.1⟩

/-- Stage list of the worked ordering example of the spec: `--stages fix,implement`. -/
def exStages : List StageSel := parseStages "fix,implement" (some 3)

/-- Tickets directory of the worked ordering example: `fix/5-a.md`,
`fix/3-c.md` and `implement/5-b.md`. -/
def exListings : String → Option (List String) := fun st =>
  if st = "fix" then some ["5-a.md", "3-c.md"]
  else if st = "implement" then some ["5-b.md"] else none

/-- Claim C3: the global run order is a permutation of the snapshot that is
grouped by stage position and sorted by descending priority within a
group, ties keeping discovery order; and the worked example comes out in
exactly the stated order. -/
theorem claim_C3 (stages : List StageSel) (ts : List Ticket) :
    (sortSnapshot stages ts).Perm ts ∧
    (sortSnapshot stages ts).Pairwise (fun a b =>
      stageOrderIdx stages a.stage < stageOrderIdx stages b.stage ∨
        (stageOrderIdx stages a.stage = stageOrderIdx stages b.stage ∧
          b.priority ≤ a.priority)) ∧
    (∀ a b : Ticket, List.Sublist [a, b] ts → cmpMain stages a b = 0 →
      List.Sublist [a, b] (sortSnapshot stages ts)) ∧
    (∀ (es : List String) (st : String) (m : Option Int) (t1 t2 : Ticket),
      List.Sublist [t1, t2] (discoverFilter es st m) → t1.priority = t2.priority →
      List.Sublist [t1, t2] (discoverTickets (some es) st m)) ∧
    sortSnapshot exStages (snapshotTickets exListings exStages) =
      [⟨"5-a.md", "fix", 5⟩, ⟨"3-c.md", "fix", 3⟩, ⟨"5-b.md", "implement", 5⟩] := by
  refine ⟨List.perm_insertionSort (mainLe stages) ts, ?_, ?_, ?_, by decide⟩
  · exact (List.sorted_insertionSort (mainLe stages) ts).imp
      (fun hab => (cmpMain_le_iff stages _ _).mp hab)
  · intro a b hsub hcmp
    exact List.pair_sublist_insertionSort (le_of_eq hcmp) hsub
  · intro es st m t1 t2 hsub hpr
    unfold discoverTickets
    refine List.pair_sublist_insertionSort ?_ hsub
    unfold byPriorityDesc
    omega

theorem claim_C3_witness :
    sortSnapshot exStages (snapshotTickets exListings exStages) =
      [⟨"5-a.md", "fix", 5⟩, ⟨"3-c.md", "fix", 3⟩, ⟨"5-b.md", "implement", 5⟩] :=
  (claim_C3 [] []).2.2.2.2

/-- Claim C9: with `--stages` omitted the stage list is the
`PENDING_STAGES` order — fix, review, implement, plan — each with the
global minimum priority (3 by default), and consequently no
implement-stage or plan-stage ticket ever precedes a review-stage ticket
in the run order of a default run. -/
theorem claim_C9 (m : Option Int) :
    parseStages (joinComma PENDING_STAGES) m =
      [⟨"fix", m⟩, ⟨"review", m⟩, ⟨"implement", m⟩, ⟨"plan", m⟩] ∧
    parseArgsFull [] = .inr ⟨defaultOpts,
      [⟨"fix", some 3⟩, ⟨"review", some 3⟩, ⟨"implement", some 3⟩, ⟨"plan", some 3⟩]⟩ ∧
    ∀ listings : String → Option (List String),
      (sortSnapshot (parseStages (joinComma PENDING_STAGES) m)
        (snapshotTickets listings (parseStages (joinComma PENDING_STAGES) m))).Pairwise
        (fun a b => ¬((a.stage = "implement" ∨ a.stage = "plan") ∧ b.stage = "review")) := by
  refine ⟨rfl, by decide, ?_⟩
  intro listings
  have hs := List.sorted_insertionSort
    (mainLe (parseStages (joinComma PENDING_STAGES) m))
    (snapshotTickets listings (parseStages (joinComma PENDING_STAGES) m))
  refine hs.imp ?_
  intro a b hab hcon
  obtain ⟨ha, hb⟩ := hcon
  rw [mainLe, cmpMain_le_iff] at hab
  have hbr : stageOrderIdx (parseStages (joinComma PENDING_STAGES) m) b.stage = 1 := by
    rw [hb]; rfl
  cases ha with
  | inl h =>
    have har : stageOrderIdx (parseStages (joinComma PENDING_STAGES) m) a.stage = 2 := by
      rw [h]; rfl
    omega
  | inr h =>
    have har : stageOrderIdx (parseStages (joinComma PENDING_STAGES) m) a.stage = 3 := by
      rw [h]; rfl
    omega

theorem claim_C9_witness :
    parseStages (joinComma PENDING_STAGES) (some 3) =
      [⟨"fix", some 3⟩, ⟨"review", some 3⟩, ⟨"implement", some 3⟩, ⟨"plan", some 3⟩] :=
  (claim_C9 (some 3)).1

theorem claim_C10_witness :
    parseArgsFull ["--min-priority", "foo"] =
      .inr ⟨⟨none, "claude", false, none⟩,
        [⟨"fix", none⟩, ⟨"review", none⟩, ⟨"implement", none⟩, ⟨"plan", none⟩]⟩ ∧
    "1-low.md" ∈ (discoverTickets (some ["1-low.md"]) "fix" none).map Ticket.file := by
  refine ⟨(claim_C10 "foo" (by decide)).1, ?_⟩
  exact (claim_C10 "foo" (by decide)).2 ["1-low.md"] "fix" "1-low.md"
    (by decide) (by decide) (by decide)

/-! ### Supervisor claims -/

theorem foldl_procLine_nodone (now : Nat) :
    ∀ (evs : List StreamEvent) (acc : Option Int × Nat),
      (∀ ev ∈ evs, ev.done = false) → evs.foldl (procLine now) acc = acc := by
  intro evs
  induction evs with
  | nil => intro acc _; rfl
  | cons ev rest ih =>
    intro acc hnd
    have h1 : ev.done = false := hnd ev (List.mem_cons_self ev rest)
    have h2 := ih acc (fun e he => hnd e (List.mem_cons_of_mem ev he))
    simp only [List.foldl_cons, procLine, h1, Bool.false_eq_true, if_false]
    exact h2

theorem supRun_step_out (s : SupSt) (t : Nat) (evs : List StreamEvent)
    (rest : List (Nat × ChildEvent)) (h : t < s.deadline) :
    supRun s ((t, .out evs) :: rest) = supRun (stepChunk s t evs) rest := by
  conv_lhs => unfold supRun
  rw [if_neg (by omega)]

theorem supRun_fire (s : SupSt) (t : Nat) (e : ChildEvent)
    (rest : List (Nat × ChildEvent)) (h : s.deadline ≤ t) :
    supRun s ((t, e) :: rest) = s.latched.getD 1 := by
  unfold supRun
  rw [if_pos h]

theorem stepChunk_latch (s : SupSt) (t : Nat) (pre : List StreamEvent)
    (ev : StreamEvent) (E : Int) (hdone : ev.done = true)
    (hcode : ev.exitCode = some E) :
    stepChunk s t (pre ++ [ev]) = ⟨some E, t + RESULT_GRACE_MS⟩ := by
  simp only [stepChunk]
  rw [List.foldl_append]
  simp only [List.foldl_cons, List.foldl_nil, procLine, hdone, if_true, hcode]
  rfl

/-- Claim C6: while no result has been latched, any stdout or stderr data
chunk re-arms the idle timer to a fresh 10-minute deadline from the chunk's
arrival time; and if the idle timer fires in that state the child is killed
and the invocation resolves with exit code 1, which is non-zero. -/
theorem claim_C6 (s : SupSt) (t : Nat) (hrun : s.latched = none) :
    (∀ evs : List StreamEvent, (∀ ev ∈ evs, ev.done = false) →
      stepChunk s t evs = ⟨none, t + IDLE_TIMEOUT_MS⟩) ∧
    stepChunk s t [] = ⟨none, t + IDLE_TIMEOUT_MS⟩ ∧
    supRun s [] = 1 ∧
    (∀ (e : ChildEvent) (rest : List (Nat × ChildEvent)), s.deadline ≤ t →
      supRun s ((t, e) :: rest) = 1) ∧
    (1 : Int) ≠ 0 := by
  have hreset : ∀ evs : List StreamEvent, (∀ ev ∈ evs, ev.done = false) →
      stepChunk s t evs = ⟨none, t + IDLE_TIMEOUT_MS⟩ := by
    intro evs hnd
    simp only [stepChunk, hrun, Option.isNone_none, if_true]
    rw [foldl_procLine_nodone t evs (none, t + IDLE_TIMEOUT_MS) hnd]
  refine ⟨hreset, hreset [] (by intro ev h; exact absurd h (List.not_mem_nil ev)),
    ?_, ?_, by decide⟩
  · unfold supRun
    rw [hrun]
    rfl
  · intro e rest hfire
    rw [supRun_fire s t e rest hfire, hrun]
    rfl

theorem claim_C6_witness :
    stepChunk ⟨none, 1000⟩ 5 [⟨"partial output", false, none⟩] =
      ⟨none, 5 + IDLE_TIMEOUT_MS⟩ ∧
    supRun ⟨none, 1000⟩ [(1000, .err)] = 1 := by
  refine ⟨(claim_C6 ⟨none, 1000⟩ 5 rfl).1 [⟨"partial output", false, none⟩] (by decide), ?_⟩
  exact (claim_C6 ⟨none, 1000⟩ 1000 rfl).2.2.2.1 .err [] (by decide)

/-- Claim C7: a `done` event with exit code E latches E and re-arms the
timer to a 30-second grace deadline; if that deadline elapses with no
natural exit, the child is killed and the invocation still resolves with
the latched code E. -/
theorem claim_C7 (s : SupSt) (t : Nat) (pre : List StreamEvent) (ev : StreamEvent)
    (E : Int) (hdone : ev.done = true) (hcode : ev.exitCode = some E) :
    stepChunk s t (pre ++ [ev]) = ⟨some E, t + RESULT_GRACE_MS⟩ ∧
    (∀ s2 : SupSt, s2.latched = some E →
      supRun s2 [] = E ∧
      ∀ (t2 : Nat) (e : ChildEvent) (rest : List (Nat × ChildEvent)),
        s2.deadline ≤ t2 → supRun s2 ((t2, e) :: rest) = E) ∧
    (∀ (t2 : Nat) (e2 : ChildEvent) (rest : List (Nat × ChildEvent)),
      t < s.deadline → t + RESULT_GRACE_MS ≤ t2 →
      supRun s ((t, .out (pre ++ [ev])) :: (t2, e2) :: rest) = E) := by
  have hlatch := stepChunk_latch s t pre ev E hdone hcode
  refine ⟨hlatch, ?_, ?_⟩
  · intro s2 h2
    constructor
    · unfold supRun
      rw [h2]
      rfl
    · intro t2 e rest hfire
      rw [supRun_fire s2 t2 e rest hfire, h2]
      rfl
  · intro t2 e2 rest hlive hfire
    rw [supRun_step_out s t (pre ++ [ev]) ((t2, e2) :: rest) hlive, hlatch]
    rw [supRun_fire ⟨some E, t + RESULT_GRACE_MS⟩ t2 e2 rest hfire]
    rfl

theorem claim_C7_witness :
    stepChunk initSup 5 [⟨"\n[RESULT done]\n", true, some 0⟩] =
      ⟨some 0, 5 + RESULT_GRACE_MS⟩ ∧
    supRun initSup [(5, .out [⟨"\n[RESULT done]\n", true, some 0⟩]),
      (30005, .close none [])] = 0 := by
  have h := claim_C7 initSup 5 [] ⟨"\n[RESULT done]\n", true, some 0⟩ 0 rfl rfl
  exact ⟨h.1, h.2.2 30005 (.close none []) [] (by decide) (by decide)⟩

/-- Claim C5: a structured terminal result line normalizes to a done event
whose exit code is 1 exactly when the error flag is set and 0 otherwise;
that latched code is what the supervised invocation resolves, so an
error-flagged result makes the batch stop at that ticket and a non-error
result lets the loop continue. -/
theorem claim_C5 (isErr : Bool) (durStr costStr res : Option String) :
    (formatClaudeJsonLine (.resultMsg isErr durStr costStr res)).done = true ∧
    (formatClaudeJsonLine (.resultMsg isErr durStr costStr res)).exitCode =
      some (if isErr then 1 else 0) ∧
    (∀ (t tc : Nat) (c : Option Int), t < IDLE_TIMEOUT_MS → tc < t + RESULT_GRACE_MS →
      supRun initSup
        [(t, .out [formatClaudeJsonLine (.resultMsg isErr durStr costStr res)]),
          (tc, .close c [])] = if isErr then 1 else 0) ∧
    (∀ (ag : String) (exec : Ticket → Int) (tk : Ticket) (rest : List Ticket),
      exec tk = (if isErr then 1 else 0) →
      (isErr = true →
        (runLoop true ag exec (tk :: rest)).exitCode = 1 ∧
          (runLoop true ag exec (tk :: rest)).processed = [tk]) ∧
      (isErr = false →
        (runLoop true ag exec (tk :: rest)).exitCode =
            (runLoop true ag exec rest).exitCode ∧
          (runLoop true ag exec (tk :: rest)).processed =
            tk :: (runLoop true ag exec rest).processed)) := by
  refine ⟨rfl, rfl, ?_, ?_⟩
  · intro t tc c ht htc
    have hstep := stepChunk_latch initSup t []
      (formatClaudeJsonLine (.resultMsg isErr durStr costStr res))
      (if isErr then 1 else 0) rfl rfl
    rw [List.nil_append] at hstep
    rw [supRun_step_out initSup t
      [formatClaudeJsonLine (.resultMsg isErr durStr costStr res)]
      [(tc, .close c [])] (by simp only [initSup]; omega), hstep]
    unfold supRun
    rw [if_neg (show ¬(t + RESULT_GRACE_MS ≤ tc) by omega)]
    rfl
  · intro ag exec tk rest hexec
    constructor
    · intro hE
      rw [hE] at hexec
      simp [runLoop, hexec]
    · intro hE
      rw [hE] at hexec
      simp [runLoop, hexec]

theorem claim_C5_witness :
    supRun initSup
      [(5, .out [formatClaudeJsonLine (.resultMsg true none none (some "boom"))]),
        (10, .close (some 0) [])] = 1 := by
  have h := (claim_C5 true none none (some "boom")).2.2.1 5 10 (some 0)
    (by decide) (by decide)
  exact h

end Tess
